import Mathlib

/-!
Verification of the typing-session engine of the `typer` repository
(`src/typer/typer.py`, the canonical variant; `src/typer.py` is an earlier
rewrite of the same code).

The Python code is shallowly embedded: the `Sentence` class becomes a
structure with the same fields, its methods become pure functions from the
old state to the new one, and the keystroke `while` loop of `run` becomes a
fold over the list of decoded reads.  Strings are lists of characters;
Python floats are modelled by exact rationals.
-/

/-- The set `printable = set(string.printable)` from the source:
`string.printable` is digits + letters + punctuation + whitespace,
i.e. the ASCII characters 32..126 together with TAB (9), LF (10),
VT (11), FF (12) and CR (13). -/
def pyPrintable (c : Char) : Bool :=
  decide ((32 ≤ c.toNat ∧ c.toNat ≤ 126) ∨ c.toNat = 9 ∨ c.toNat = 10 ∨
    c.toNat = 11 ∨ c.toNat = 12 ∨ c.toNat = 13)

/-- `codes['back'] = '\x7f'`, the backspace code. -/
def backCode : Char := '\x7f'

/-- The `Sentence` class of `src/typer/typer.py`: `_success` is the list of
correctly typed characters, `_errors` the stack of mistyped characters,
`_remain` the unconsumed suffix of the target text, and `_len` the length
of the target text recorded at construction (`self._len = len(self._remain)`). -/
structure Sentence where
  _success : List Char
  _errors : List Char
  _remain : List Char
  _len : Nat
deriving DecidableEq, Repr

/-- `Sentence.__init__`: the freshly joined target text becomes `_remain`,
`_len` is its length, `_success` and `_errors` start empty.  (The random
word choice and the dictionary file are external; the target text is taken
as a parameter.) -/
def Sentence.init (target : List Char) : Sentence :=
  ⟨[], [], target, target.length⟩

/-- The `errors` property: `bool(self._errors)`. -/
def Sentence.errors (s : Sentence) : Bool :=
  !s._errors.isEmpty

/-- The `head` property: `self._remain[0]`, as an option (Python raises
`IndexError` on an empty deque; the input loop only reads `head` while the
`while sentence:` guard holds, so the `none` case is never compared). -/
def Sentence.head? (s : Sentence) : Option Char :=
  s._remain.head?

/-- `Sentence.success`: `self._success.append(self._remain.popleft())` —
moves the head of `_remain` to the end of `_success`.  `popleft` on an
empty deque raises in Python; the loop guard makes that unreachable, and
the embedding returns the state unchanged in that case. -/
def Sentence.success (s : Sentence) : Sentence :=
  match s._remain with
  | [] => s
  | c :: rest => { s with _success := s._success ++ [c], _remain := rest }

/-- `Sentence.pop_error`: `self._errors.pop()` — removes the most recently
appended error.  (`pop` on an empty list raises in Python; every call site
is guarded by `if sentence.errors`, under which `dropLast` agrees.) -/
def Sentence.pop_error (s : Sentence) : Sentence :=
  { s with _errors := s._errors.dropLast }

/-- `Sentence.append_error`: `self._errors.append(val)`. -/
def Sentence.append_error (s : Sentence) (val : Char) : Sentence :=
  { s with _errors := s._errors ++ [val] }

/-- The concatenation `''.join(itertools.chain(self._success, self._errors,
self._remain))` computed at the top of `Sentence.__repr__`. -/
def Sentence.text (s : Sentence) : List Char :=
  s._success ++ s._errors ++ s._remain

/-- One iteration of the keystroke dispatch in `run` (`src/typer/typer.py`
lines 154-164), for one decoded read `ch` (a Python string, i.e. a list of
characters): backspace pops an error if any; a single printable character
either records an error (when errors are pending or the character differs
from the head of `_remain`) or consumes the head, and increments
`count_raw`; everything else is ignored.  `ch in printable` is membership
in a set of single-character strings, hence `ch` must be exactly one
printable character. -/
def step (s : Sentence) (count_raw : Nat) (ch : List Char) : Sentence × Nat :=
  if ch = [backCode] then
    if s.errors then (s.pop_error, count_raw) else (s, count_raw)
  else
    match ch with
    | [c] =>
      if pyPrintable c then
        (if s.errors || s.head? != some c then s.append_error c else s.success,
          count_raw + 1)
      else (s, count_raw)
    | _ => (s, count_raw)

/-- The `while sentence:` input loop of `run`: each element of the input
list is one blocking read, given as the decoded characters together with
the duration of the read (the `time.time() - t0` sample).  The duration is
added to `total_time` only when `count_raw` is non-zero at the start of the
iteration (`total_time += (time.time() - t0) if count_raw else 0`), which
excludes the first keystroke's latency.  Returns the final sentence,
`count_raw`, and `total_time` (in seconds). -/
def runLoop : Sentence → Nat → ℚ → List (List Char × ℚ) → Sentence × Nat × ℚ
  | s, count_raw, total_time, [] => (s, count_raw, total_time)
  | s, count_raw, total_time, (ch, d) :: rest =>
    if s._remain = [] then (s, count_raw, total_time)
    else
      let total_time' := total_time + (if count_raw ≠ 0 then d else 0)
      let p := step s count_raw ch
      runLoop p.1 p.2 total_time' rest

/-- The states reachable from `s₀` by any sequence of the three mutating
operations of `Sentence`, each applied only under the guard its Python call
sites establish (`success` needs a non-empty `_remain`, `pop_error` a
non-empty `_errors`; `append_error` is unguarded). -/
inductive Reach : Sentence → Sentence → Prop
  | refl (s : Sentence) : Reach s s
  | succ {s s' : Sentence} : Reach s s' → s'._remain ≠ [] → Reach s s'.success
  | app {s s' : Sentence} (c : Char) : Reach s s' → Reach s (s'.append_error c)
  | pop {s s' : Sentence} : Reach s s' → s'._errors ≠ [] → Reach s s'.pop_error

/-- Sum of the three partition lengths (the quantity of spec property 1). -/
def Sentence.sumLen (s : Sentence) : Nat :=
  s._success.length + s._errors.length + s._remain.length

example : step (Sentence.init ['a', 'b']) 0 ['a'] =
    (⟨['a'], [], ['b'], 2⟩, 1) := by decide

example : step (Sentence.init ['a', 'b']) 0 ['x'] =
    (⟨[], ['x'], ['a', 'b'], 2⟩, 1) := by decide

example : step ⟨[], ['x'], ['a'], 1⟩ 1 [backCode] =
    (⟨[], [], ['a'], 1⟩, 1) := by decide

example : step ⟨[], [], ['a'], 1⟩ 1 ['\x1b', '[', 'A'] =
    (⟨[], [], ['a'], 1⟩, 1) := by decide

/-! ### Invariants of the reachable states -/

/-- `success` preserves `_success.length + _remain.length` when `_remain`
is non-empty (it moves exactly one character across). -/
theorem Sentence.success_lengths (s : Sentence) (h : s._remain ≠ []) :
    s.success._success.length + s.success._remain.length =
      s._success.length + s._remain.length ∧
    s.success._errors = s._errors ∧ s.success._len = s._len := by
  cases hr : s._remain with
  | nil => exact absurd hr h
  | cons c rest =>
    simp [Sentence.success, hr]
    omega

/-- The two lists untouched by `append_error`/`pop_error`. -/
theorem Sentence.error_ops_frame (s : Sentence) (c : Char) :
    (s.append_error c)._success = s._success ∧
      (s.append_error c)._remain = s._remain ∧
      (s.append_error c)._len = s._len ∧
      s.pop_error._success = s._success ∧ s.pop_error._remain = s._remain ∧
      s.pop_error._len = s._len := by
  simp [Sentence.append_error, Sentence.pop_error]

/-- Core inductive invariant: along any reachable sequence of operations,
`_len` is unchanged and `_success.length + _remain.length` is unchanged. -/
theorem Reach.lengths {s₀ s : Sentence} (h : Reach s₀ s) :
    s._success.length + s._remain.length =
      s₀._success.length + s₀._remain.length ∧ s._len = s₀._len := by
  induction h with
  | refl => exact ⟨rfl, rfl⟩
  | succ hr hne ih =>
    rcases Sentence.success_lengths _ hne with ⟨h1, _, h3⟩
    exact ⟨h1.trans ih.1, h3.trans ih.2⟩
  | app c hr ih =>
    simpa [Sentence.append_error] using ih
  | pop hr hne ih =>
    simpa [Sentence.pop_error] using ih

/-- C1 counterexample: from the session on target `"a"`, recording one
error (`append_error 'b'`) yields a reachable state whose three partition
lengths sum to 2, not to the initial target length 1: `record_error`
pushes the typed character without consuming a character of `_remain`. -/
theorem recordError_breaks_sum_invariant :
    Reach (Sentence.init ['a']) ((Sentence.init ['a']).append_error 'b') ∧
      ((Sentence.init ['a']).append_error 'b').sumLen ≠
        (['a'] : List Char).length :=
  ⟨Reach.app 'b' (Reach.refl _), by decide⟩

/-- C1 (amended): for every reachable state of a session, the sum of the
three partition lengths equals the initial target length **plus the number
of pending errors** (equivalently, `completed + remaining` is the constant
part; pending errors are extra characters, not consumed target ones). -/
theorem reach_sumLen_eq_len_add_errors (t : List Char) (s : Sentence)
    (h : Reach (Sentence.init t) s) :
    s.sumLen = t.length + s._errors.length := by
  have hl := Reach.lengths h
  simp [Sentence.init] at hl
  unfold Sentence.sumLen
  omega

/-- Witness for the amended C1, at the freshly constructed session. -/
theorem reach_sumLen_eq_len_add_errors_witness :
    (Sentence.init ['a']).sumLen =
      (['a'] : List Char).length + (Sentence.init ['a'])._errors.length :=
  reach_sumLen_eq_len_add_errors ['a'] _ (Reach.refl _)

/-- C2: for every reachable state, `_success.length + _remain.length`
equals the initial target length (which is also the recorded `_len`):
`success` moves exactly one character from the head of `_remain` to the
end of `_success`, while `append_error`/`pop_error` touch only `_errors`. -/
theorem reach_success_remain_invariant (t : List Char) (s : Sentence)
    (h : Reach (Sentence.init t) s) :
    s._success.length + s._remain.length = t.length ∧ s._len = t.length := by
  have hl := Reach.lengths h
  simpa [Sentence.init] using hl

/-- Witness for C2, after one successful keystroke on target `"ab"`. -/
theorem reach_success_remain_invariant_witness :
    (Sentence.init ['a', 'b']).success._success.length +
        (Sentence.init ['a', 'b']).success._remain.length =
      (['a', 'b'] : List Char).length ∧
      (Sentence.init ['a', 'b']).success._len =
        (['a', 'b'] : List Char).length :=
  reach_success_remain_invariant ['a', 'b'] _
    (Reach.succ (Reach.refl _) (by decide))

/-- A printable character is never the backspace code (0x7f). -/
theorem pyPrintable_ne_backCode {c : Char} (h : pyPrintable c = true) :
    c ≠ backCode := by
  intro hc
  subst hc
  simp [pyPrintable, backCode] at h

/-- C3: the per-keystroke dispatch of the input loop, case by case, for a
state in which the loop guard holds (`_remain` non-empty).  Backspace pops
the top pending error when there is one and otherwise changes nothing; a
single printable character records an error when errors are pending or it
differs from the head of `_remain` and otherwise advances, incrementing
`count_raw` in both printable branches; any other decoded read — the empty
string, a multi-character read, or a single non-printable character —
leaves both the state and the counter unchanged. -/
theorem step_state_machine (s : Sentence) (cnt : Nat) (ch : List Char)
    (hrem : s._remain ≠ []) :
    (ch = [backCode] →
      (s._errors ≠ [] → step s cnt ch = (s.pop_error, cnt)) ∧
        (s._errors = [] → step s cnt ch = (s, cnt))) ∧
    (∀ c, ch = [c] → pyPrintable c = true →
      ((s._errors ≠ [] ∨ s.head? ≠ some c) →
          step s cnt ch = (s.append_error c, cnt + 1)) ∧
        (s._errors = [] ∧ s.head? = some c →
          step s cnt ch = (s.success, cnt + 1))) ∧
    ((ch ≠ [backCode] ∧ ∀ c, ch = [c] → pyPrintable c = false) →
      step s cnt ch = (s, cnt)) := by
  refine ⟨?_, ?_, ?_⟩
  · rintro rfl
    constructor
    · intro he
      simp [step, Sentence.errors, List.isEmpty_iff, he]
    · intro he
      simp [step, Sentence.errors, List.isEmpty_iff, he]
  · rintro c rfl hc
    have hb : ([c] : List Char) ≠ [backCode] := by
      simpa using pyPrintable_ne_backCode hc
    constructor
    · rintro (he | hh)
      · simp [step, hb, hc, Sentence.errors, List.isEmpty_iff, he]
      · rcases hne : s.errors with _ | _
        · simp [step, hb, hc, hne, hh]
        · simp [step, hb, hc, hne]
    · rintro ⟨he, hh⟩
      simp [step, hb, hc, Sentence.errors, List.isEmpty_iff, he, hh]
  · rintro ⟨hb, hnp⟩
    match ch with
    | [] => simp [step]
    | [c] => simp [step, hb, hnp c rfl]
    | c₁ :: c₂ :: rest => simp [step, hb]

/-- Witness for C3, on the fresh session for target `"ab"` with the
correct keystroke `'a'`. -/
theorem step_state_machine_witness :
    (['a'] = [backCode] →
      ((Sentence.init ['a', 'b'])._errors ≠ [] →
          step (Sentence.init ['a', 'b']) 0 ['a'] =
            ((Sentence.init ['a', 'b']).pop_error, 0)) ∧
        ((Sentence.init ['a', 'b'])._errors = [] →
          step (Sentence.init ['a', 'b']) 0 ['a'] =
            (Sentence.init ['a', 'b'], 0))) ∧
    (∀ c, ['a'] = [c] → pyPrintable c = true →
      (((Sentence.init ['a', 'b'])._errors ≠ [] ∨
            (Sentence.init ['a', 'b']).head? ≠ some c) →
          step (Sentence.init ['a', 'b']) 0 ['a'] =
            ((Sentence.init ['a', 'b']).append_error c, 0 + 1)) ∧
        ((Sentence.init ['a', 'b'])._errors = [] ∧
            (Sentence.init ['a', 'b']).head? = some c →
          step (Sentence.init ['a', 'b']) 0 ['a'] =
            ((Sentence.init ['a', 'b']).success, 0 + 1))) ∧
    ((['a'] ≠ [backCode] ∧ ∀ c, ['a'] = [c] → pyPrintable c = false) →
      step (Sentence.init ['a', 'b']) 0 ['a'] = (Sentence.init ['a', 'b'], 0)) :=
  step_state_machine (Sentence.init ['a', 'b']) 0 ['a'] (by decide)

/-- C7: while pending errors exist, every printable keystroke is appended
to `_errors` — even one equal to the head of `_remain` — and `_success`
and `_remain` are untouched; the raw counter still increments. -/
theorem error_lock_step (s : Sentence) (cnt : Nat) (c : Char)
    (he : s._errors ≠ []) (hc : pyPrintable c = true) :
    (step s cnt [c]).1._errors = s._errors ++ [c] ∧
      (step s cnt [c]).1._success = s._success ∧
      (step s cnt [c]).1._remain = s._remain ∧
      (step s cnt [c]).2 = cnt + 1 := by
  have hb : ([c] : List Char) ≠ [backCode] := by
    simpa using pyPrintable_ne_backCode hc
  simp [step, hb, hc, Sentence.errors, List.isEmpty_iff, he,
    Sentence.append_error]

/-- Witness for C7: with one pending error on target `"a"`, typing the
**correct** character `'a'` is still recorded as an error. -/
theorem error_lock_step_witness :
    (step ⟨[], ['x'], ['a'], 1⟩ 1 ['a']).1._errors = ['x'] ++ ['a'] ∧
      (step ⟨[], ['x'], ['a'], 1⟩ 1 ['a']).1._success = [] ∧
      (step ⟨[], ['x'], ['a'], 1⟩ 1 ['a']).1._remain = ['a'] ∧
      (step ⟨[], ['x'], ['a'], 1⟩ 1 ['a']).2 = 1 + 1 :=
  error_lock_step ⟨[], ['x'], ['a'], 1⟩ 1 'a' (by decide) (by decide)

/-! ### Metrics -/

/-- Round-to-nearest-integer with ties to even: the exact-arithmetic
idealization of Python's `round` (Python floats are modelled by exact
rationals throughout). -/
def roundHalfEven (q : ℚ) : ℤ :=
  if q - ⌊q⌋ < 1/2 then ⌊q⌋
  else if 1/2 < q - ⌊q⌋ then ⌊q⌋ + 1
  else if Even ⌊q⌋ then ⌊q⌋ else ⌊q⌋ + 1

/-- Python's `round(x, 1)`: round to one decimal place. -/
def pyRound1 (q : ℚ) : ℚ :=
  ((roundHalfEven (q * 10) : ℤ) : ℚ) / 10

/-- `round(len(sentence) / count_raw * 100, 1)` — the accuracy percentage
printed by `run`, with `L = len(sentence)` and `R = count_raw`. -/
def accuracy (L R : ℕ) : ℚ :=
  pyRound1 ((L : ℚ) / (R : ℚ) * 100)

/-- The metrics block after the loop (`src/typer/typer.py` lines 166-169):
`total_time /= 60`, then raw WPM, accuracy and adjusted WPM, each rounded
to one decimal.  A Python float division by zero raises
`ZeroDivisionError`; that outcome is modelled as `none`. -/
def metricsOutput (count_raw L : ℕ) (total_time_sec : ℚ) : Option (ℚ × ℚ × ℚ) :=
  let t := total_time_sec / 60
  if t = 0 then none
  else if (count_raw : ℚ) = 0 then none
  else
    let rwpm := pyRound1 ((count_raw : ℚ) / 5 / t)
    let acc := pyRound1 ((L : ℚ) / (count_raw : ℚ) * 100)
    some (rwpm, acc, pyRound1 (rwpm * acc / 100))

theorem roundHalfEven_le {q : ℚ} {n : ℤ} (h : q ≤ (n : ℚ)) :
    roundHalfEven q ≤ n := by
  have hfl : ⌊q⌋ ≤ n := by
    have := Int.floor_le_floor h
    simpa using this
  unfold roundHalfEven
  split
  · exact hfl
  next h1 =>
    have hlt : ⌊q⌋ < n := by
      rcases lt_or_eq_of_le hfl with hlt | heq
      · exact hlt
      · exfalso
        have h2 : (1 : ℚ)/2 ≤ q - ⌊q⌋ := not_lt.mp h1
        rw [heq] at h2
        linarith
    split
    · omega
    · split <;> omega

theorem roundHalfEven_le_of_lt_half {q : ℚ} {n : ℤ} (h : q < (n : ℚ) + 1/2) :
    roundHalfEven q ≤ n := by
  have hfl : ⌊q⌋ ≤ n := by
    have : ⌊q⌋ < n + 1 := by
      rw [Int.floor_lt]
      push_cast
      linarith
    omega
  unfold roundHalfEven
  split
  · exact hfl
  next h1 =>
    have hlt : ⌊q⌋ < n := by
      rcases lt_or_eq_of_le hfl with hlt | heq
      · exact hlt
      · exfalso
        have h2 : (1 : ℚ)/2 ≤ q - ⌊q⌋ := not_lt.mp h1
        rw [heq] at h2
        linarith
    split
    · omega
    · split <;> omega

theorem roundHalfEven_intCast (n : ℤ) : roundHalfEven (n : ℚ) = n := by
  unfold roundHalfEven
  norm_num

theorem accuracy_le_100 {L R : ℕ} (hLR : L ≤ R) (hR : 0 < R) :
    accuracy L R ≤ 100 := by
  unfold accuracy pyRound1
  have hRq : (0 : ℚ) < (R : ℚ) := by exact_mod_cast hR
  have hLq : (L : ℚ) ≤ (R : ℚ) := by exact_mod_cast hLR
  have hx : (L : ℚ) / (R : ℚ) * 100 * 10 ≤ ((1000 : ℤ) : ℚ) := by
    rw [div_mul_eq_mul_div, div_mul_eq_mul_div, div_le_iff₀ hRq]
    push_cast
    linarith
  have hr := roundHalfEven_le hx
  rw [div_le_iff₀ (by norm_num : (0:ℚ) < 10)]
  have : ((roundHalfEven ((L : ℚ) / (R : ℚ) * 100 * 10) : ℤ) : ℚ) ≤
      ((1000 : ℤ) : ℚ) := by exact_mod_cast hr
  calc ((roundHalfEven ((L : ℚ) / (R : ℚ) * 100 * 10) : ℤ) : ℚ) ≤
        ((1000 : ℤ) : ℚ) := this
    _ = 100 * 10 := by norm_num

theorem accuracy_self {R : ℕ} (hR : 0 < R) : accuracy R R = 100 := by
  unfold accuracy pyRound1
  have hRq : ((R : ℚ)) ≠ 0 := by
    exact_mod_cast Nat.pos_iff_ne_zero.mp hR
  rw [div_self hRq, show (1 : ℚ) * 100 * 10 = ((1000 : ℤ) : ℚ) by norm_num,
    roundHalfEven_intCast]
  norm_num

theorem accuracy_lt_100 {L R : ℕ} (hLR : L < R) (hsmall : L ≤ 1998) :
    accuracy L R < 100 := by
  unfold accuracy pyRound1
  have hRq : (0 : ℚ) < (R : ℚ) := by
    have : 0 < R := lt_of_le_of_lt (Nat.zero_le L) hLR
    exact_mod_cast this
  have hx : (L : ℚ) / (R : ℚ) * 100 * 10 < ((999 : ℤ) : ℚ) + 1/2 := by
    rw [div_mul_eq_mul_div, div_mul_eq_mul_div, div_lt_iff₀ hRq]
    have hR1 : (L : ℚ) + 1 ≤ (R : ℚ) := by exact_mod_cast hLR
    have hLq : (L : ℚ) ≤ 1998 := by exact_mod_cast hsmall
    push_cast
    nlinarith
  have hr := roundHalfEven_le_of_lt_half hx
  rw [div_lt_iff₀ (by norm_num : (0:ℚ) < 10)]
  have : ((roundHalfEven ((L : ℚ) / (R : ℚ) * 100 * 10) : ℤ) : ℚ) ≤
      ((999 : ℤ) : ℚ) := by exact_mod_cast hr
  calc ((roundHalfEven ((L : ℚ) / (R : ℚ) * 100 * 10) : ℤ) : ℚ) ≤
        ((999 : ℤ) : ℚ) := this
    _ < 100 * 10 := by norm_num

/-! ### The input loop and the metrics claims -/

/-- One dispatch step preserves `_len` and `_success.length +
_remain.length`, never decreases the counter, and grows `_success` by at
most the counter increment. -/
theorem step_invariant (s : Sentence) (cnt : Nat) (ch : List Char) :
    (step s cnt ch).1._success.length + (step s cnt ch).1._remain.length =
      s._success.length + s._remain.length ∧
    (step s cnt ch).1._len = s._len ∧
    cnt ≤ (step s cnt ch).2 ∧
    (step s cnt ch).1._success.length + cnt ≤
      s._success.length + (step s cnt ch).2 := by
  unfold step
  split
  · split <;> simp [Sentence.pop_error]
  · split
    · split
      · split
        · simp [Sentence.append_error]
        · cases hr : s._remain with
          | nil => simp [Sentence.success, hr]
          | cons a rest =>
            simp [Sentence.success, hr]
            omega
      · simp
    · simp

/-- Loop invariant: running the input loop preserves `_len` and
`_success.length + _remain.length`, and the counter grows at least as fast
as `_success`. -/
theorem runLoop_invariant (inputs : List (List Char × ℚ)) :
    ∀ (s : Sentence) (cnt : Nat) (tt : ℚ),
      (runLoop s cnt tt inputs).1._success.length +
          (runLoop s cnt tt inputs).1._remain.length =
        s._success.length + s._remain.length ∧
      (runLoop s cnt tt inputs).1._len = s._len ∧
      cnt ≤ (runLoop s cnt tt inputs).2.1 ∧
      (runLoop s cnt tt inputs).1._success.length + cnt ≤
        s._success.length + (runLoop s cnt tt inputs).2.1 := by
  induction inputs with
  | nil =>
    intro s cnt tt
    simp [runLoop]
  | cons p rest ih =>
    intro s cnt tt
    obtain ⟨ch, d⟩ := p
    rw [runLoop]
    split
    · simp
    · have hs := step_invariant s cnt ch
      have hr := ih (step s cnt ch).1 (step s cnt ch).2
        (tt + if cnt ≠ 0 then d else 0)
      simp only at hr ⊢
      omega

/-- Typing the whole remaining text correctly (no pending errors, every
character printable, zero read durations) consumes all of `_remain` and
adds its length to the counter. -/
theorem runLoop_all_correct (t : List Char) :
    ∀ (pre : List Char) (cnt : Nat) (tt : ℚ) (n : Nat),
      (∀ c ∈ t, pyPrintable c = true) →
      runLoop ⟨pre, [], t, n⟩ cnt tt (t.map fun c => ([c], (0 : ℚ))) =
        (⟨pre ++ t, [], [], n⟩, cnt + t.length, tt) := by
  induction t with
  | nil =>
    intro pre cnt tt n _
    simp [runLoop]
  | cons c rest ih =>
    intro pre cnt tt n hp
    have hc : pyPrintable c = true := hp c (List.mem_cons_self c rest)
    have hb : ([c] : List Char) ≠ [backCode] := by
      simpa using pyPrintable_ne_backCode hc
    rw [List.map_cons, runLoop]
    simp only [if_neg (by simp : ¬(c :: rest = []))]
    have hstep : step ⟨pre, [], c :: rest, n⟩ cnt [c] =
        (⟨pre ++ [c], [], rest, n⟩, cnt + 1) := by
      simp [step, hb, hc, Sentence.errors, Sentence.head?, Sentence.success]
    rw [show (tt + if cnt ≠ 0 then (0:ℚ) else 0) = tt by split <;> ring]
    rw [hstep]
    rw [ih (pre ++ [c]) (cnt + 1) tt n (fun x hx => hp x (List.mem_cons_of_mem c hx))]
    simp
    omega

/-- C4: for every completed session produced by the input loop on a
non-empty target, the printed accuracy `round(L / R * 100, 1)` is at most
100; it equals 100 whenever `R = L`; and — the amended converse — whenever
the target length is at most 1998, accuracy 100 conversely forces
`R = L`.  (For longer targets the converse fails, see the
counterexample.) -/
theorem accuracy_of_completed_run (t : List Char)
    (inputs : List (List Char × ℚ)) (s : Sentence) (cnt : Nat) (tt : ℚ)
    (hrun : runLoop (Sentence.init t) 0 0 inputs = (s, cnt, tt))
    (hdone : s._remain = []) (ht : t ≠ []) :
    accuracy s._len cnt ≤ 100 ∧
      (cnt = s._len → accuracy s._len cnt = 100) ∧
      (s._len ≤ 1998 → accuracy s._len cnt = 100 → cnt = s._len) := by
  have hinv := runLoop_invariant inputs (Sentence.init t) 0 0
  rw [hrun] at hinv
  simp only [Sentence.init] at hinv
  obtain ⟨hsum, hlen, -, hcnt⟩ := hinv
  rw [hdone] at hsum
  simp at hsum hcnt
  have htpos : 0 < t.length := List.length_pos.mpr ht
  have hL : s._len = t.length := hlen
  have hLle : s._len ≤ cnt := by omega
  have hcpos : 0 < cnt := by omega
  refine ⟨accuracy_le_100 hLle hcpos, ?_, ?_⟩
  · rintro rfl
    exact accuracy_self hcpos
  · intro hsmall hacc
    by_contra hne
    have hlt : s._len < cnt := lt_of_le_of_ne hLle (fun h => hne h.symm)
    exact absurd hacc (ne_of_lt (accuracy_lt_100 hlt hsmall))

/-- Witness for C4: the flawless one-character session. -/
theorem accuracy_of_completed_run_witness :
    accuracy (⟨['a'], [], [], 1⟩ : Sentence)._len 1 ≤ 100 ∧
      (1 = (⟨['a'], [], [], 1⟩ : Sentence)._len →
        accuracy (⟨['a'], [], [], 1⟩ : Sentence)._len 1 = 100) ∧
      ((⟨['a'], [], [], 1⟩ : Sentence)._len ≤ 1998 →
        accuracy (⟨['a'], [], [], 1⟩ : Sentence)._len 1 = 100 →
        1 = (⟨['a'], [], [], 1⟩ : Sentence)._len) :=
  accuracy_of_completed_run ['a'] [(['a'], 0)] ⟨['a'], [], [], 1⟩ 1 0
    (runLoop_all_correct ['a'] [] 0 0 1 (by decide)) (by decide) (by decide)

/-- Unfolding one iteration of the loop while the guard holds. -/
theorem runLoop_cons {s s' : Sentence} {cnt cnt' : Nat} (tt : ℚ)
    (ch : List Char) (d : ℚ) (rest : List (List Char × ℚ))
    (h : s._remain ≠ []) (hstep : step s cnt ch = (s', cnt')) :
    runLoop s cnt tt ((ch, d) :: rest) =
      runLoop s' cnt' (tt + if cnt ≠ 0 then d else 0) rest := by
  rw [runLoop, if_neg h]
  simp only [hstep]

/-- The exact accuracy value at `L = 2000`, `R = 2001`:
`2000 / 2001 × 100 = 99.95002…`, which rounds at one decimal to `100.0`. -/
theorem accuracy_2000_2001 : accuracy 2000 2001 = 100 := by
  unfold accuracy pyRound1
  have hq : ((2000 : ℕ) : ℚ) / ((2001 : ℕ) : ℚ) * 100 * 10 = 2000000/2001 := by
    norm_num
  rw [hq]
  have hfl : ⌊(2000000/2001 : ℚ)⌋ = 999 := by
    rw [Int.floor_eq_iff]
    norm_num
  unfold roundHalfEven
  rw [hfl]
  norm_num

set_option maxRecDepth 40000 in
/-- C4 counterexample: a completed session on a 2000-character target with
exactly one corrected error has `R = 2001 ≠ 2000 = L`, yet the printed
accuracy `round(2000/2001*100, 1)` is exactly `100.0` — so accuracy 100
does **not** imply `R = L` as the claim states. -/
theorem accuracy_100_despite_error :
    runLoop (Sentence.init (List.replicate 2000 'a')) 0 0
        ((['b'], 0) :: ([backCode], 0) ::
          ((List.replicate 2000 'a').map fun c => ([c], (0 : ℚ)))) =
      (⟨List.replicate 2000 'a', [], [], 2000⟩, 2001, 0) ∧
      accuracy 2000 2001 = 100 ∧ (2001 : ℕ) ≠ 2000 := by
  refine ⟨?_, accuracy_2000_2001, by decide⟩
  have ht_cons : List.replicate 2000 'a' = 'a' :: List.replicate 1999 'a' := by
    rw [show (2000 : ℕ) = 1999 + 1 from rfl, List.replicate_succ]
  have ht_ne : List.replicate 2000 'a' ≠ [] := by
    rw [ht_cons]
    simp
  have hprint : ∀ c ∈ List.replicate 2000 'a', pyPrintable c = true := by
    intro c hc
    rw [List.eq_of_mem_replicate hc]
    decide
  have hs1 : step (Sentence.init (List.replicate 2000 'a')) 0 ['b'] =
      (⟨[], ['b'], List.replicate 2000 'a', (List.replicate 2000 'a').length⟩,
        1) := by
    rw [Sentence.init, step]
    rw [if_neg (by decide : ¬(['b'] : List Char) = [backCode])]
    simp only [show pyPrintable 'b' = true from by decide, if_pos]
    rw [if_pos]
    · rfl
    · rw [Sentence.head?]
      simp only [Sentence.errors, List.isEmpty_nil, Bool.not_true,
        Bool.false_or, ht_cons, List.head?_cons]
      decide
  have hs2 : step ⟨[], ['b'], List.replicate 2000 'a',
      (List.replicate 2000 'a').length⟩ 1 [backCode] =
      (⟨[], [], List.replicate 2000 'a',
        (List.replicate 2000 'a').length⟩, 1) := by
    simp [step, Sentence.errors, Sentence.pop_error]
  rw [runLoop_cons _ _ _ _ (by simpa [Sentence.init] using ht_ne) hs1]
  rw [runLoop_cons _ _ _ _ (by simpa using ht_ne) hs2]
  rw [show ((0 : ℚ) + (if (0:ℕ) ≠ 0 then (0:ℚ) else 0) +
      (if (1:ℕ) ≠ 0 then (0:ℚ) else 0)) = 0 by norm_num]
  rw [runLoop_all_correct _ _ _ _ _ hprint]
  simp

/-- C5: the session that completes on the very first keystroke: the read
duration (5 s here) is excluded by the `if count_raw else 0` guard, so the
loop ends with `total_time = 0`, and the unguarded metrics block
`count_raw / 5 / total_time` then divides by zero (`none`) instead of
skipping the metrics — the defect the spec flags. -/
theorem zero_elapsed_divides_by_zero :
    runLoop (Sentence.init ['a']) 0 0 [(['a'], 5)] =
        (⟨['a'], [], [], 1⟩, 1, 0) ∧
      metricsOutput 1 1 0 = none := by
  constructor
  · have hs : step (Sentence.init ['a']) 0 ['a'] =
        (⟨['a'], [], [], 1⟩, 1) := by decide
    rw [runLoop_cons _ _ _ _ (by decide) hs]
    norm_num [runLoop]
  · simp [metricsOutput]

/-! ### The renderer: `textwrap.wrap` and `Sentence.__repr__` -/

/-- The six characters of Python's `string.whitespace`
(`textwrap._whitespace`): TAB, LF, VT, FF, CR, space. -/
def pyWhitespaceChar (c : Char) : Bool :=
  decide (c.toNat = 9 ∨ c.toNat = 10 ∨ c.toNat = 11 ∨ c.toNat = 12 ∨
    c.toNat = 13 ∨ c.toNat = 32)

/-- `textwrap._munge_whitespace` under the options the renderer passes
(`expand_tabs=False`, default `replace_whitespace=True`): every whitespace
character is replaced by a single space, one for one. -/
def munge (text : List Char) : List Char :=
  text.map fun c => if pyWhitespaceChar c then ' ' else c

/-- `textwrap._split`: the munged text cut into non-empty chunks whose
concatenation is the text.  The stdlib regex also splits inside hyphenated
words; that only adds break opportunities and never changes the character
sequence, so chunks are modelled as maximal runs of spaces / non-spaces. -/
def splitChunks : List Char → List (List Char)
  | [] => []
  | c :: rest =>
    match splitChunks rest with
    | [] => [[c]]
    | [] :: groups => [c] :: [] :: groups
    | (d :: ds) :: groups =>
      if ((c == ' ') == (d == ' ')) then (c :: d :: ds) :: groups
      else [c] :: (d :: ds) :: groups

/-- The chunk-consuming inner loop of `textwrap._wrap_chunks` assembling
one output line, including `_handle_long_word` with the default
`break_long_words=True`: chunks are taken greedily while they fit; a first
non-fitting chunk longer than the width is broken, its prefix of
`space_left` characters (`1` if the width is below 1) ending the line and
its suffix returned to the chunk list.  Returns the line and the remaining
chunks. -/
def fillLine (width : ℕ) : List (List Char) → List Char → ℕ →
    List Char × List (List Char)
  | [], cur, _ => (cur, [])
  | chunk :: rest, cur, curLen =>
    if curLen + chunk.length ≤ width then
      fillLine width rest (cur ++ chunk) (curLen + chunk.length)
    else if width < chunk.length then
      (cur ++ chunk.take (if width = 0 then 1 else width - curLen),
        chunk.drop (if width = 0 then 1 else width - curLen) :: rest)
    else (cur, chunk :: rest)

/-- The outer loop of `textwrap._wrap_chunks`, one emitted line per
iteration, bounded by fuel (any fuel beyond the total character count is
enough when the width is positive; if fuel were ever to run out the
leftover chunks are emitted as one line, so no characters are lost). -/
def wrapChunksFuel (width : ℕ) : ℕ → List (List Char) → List (List Char)
  | _, [] => []
  | 0, chunks => [chunks.flatten]
  | fuel + 1, chunk :: rest =>
    ((fillLine width (chunk :: rest) [] 0).1) ::
      wrapChunksFuel width fuel (fillLine width (chunk :: rest) [] 0).2

/-- `textwrap.wrap(text, width=width, expand_tabs=False,
drop_whitespace=False)` as called by `Sentence.__repr__`. -/
def textwrapWrap (width : ℕ) (text : List Char) : List (List Char) :=
  wrapChunksFuel width (text.length + 1) (splitChunks (munge text))

/-- One piece of the output buffer assembled by `Sentence.__repr__`: a
character of the wrapped text (plain, or wrapped in the underline escape),
a 24-bit color escape, the left padding of a line, or a newline.  Escape
sequences carry no text characters. -/
inductive Tok where
  | txt : Char → Tok
  | underlined : Char → Tok
  | colorStart : ℕ → ℕ → ℕ → Tok
  | colorEnd : Tok
  | padTok : List Char → Tok
  | newline : Tok
deriving DecidableEq, Repr

/-- The character walk of `__repr__` over one wrapped line: `count` is the
running index over the whole text; before emitting the character at index
`count`, the alert color-start is inserted when `count == len(_success)`
and errors are pending, else the color-end when `count == success_errors`;
the character at index `ul` is emitted underlined. -/
def walkLine (nS nSE : ℕ) (hasErr : Bool) (ul : ℕ) :
    List Char → ℕ → List Tok
  | [], _ => []
  | w :: ws, count =>
    (if count = nS ∧ hasErr = true then [Tok.colorStart 217 4 82]
      else if count = nSE then [Tok.colorEnd] else []) ++
    (if count = ul then Tok.underlined w else Tok.txt w) ::
      walkLine nS nSE hasErr ul ws (count + 1)

/-- The walk of `__repr__` over all wrapped lines: each line is prefixed
with the padding and followed by a newline, the running index carrying
across lines. -/
def walkLines (pad : List Char) (nS nSE : ℕ) (hasErr : Bool) (ul : ℕ) :
    List (List Char) → ℕ → List Tok
  | [], _ => []
  | line :: rest, count =>
    Tok.padTok pad ::
      (walkLine nS nSE hasErr ul line count ++
        Tok.newline :: walkLines pad nS nSE hasErr ul rest (count + line.length))

/-- `Sentence.__repr__` as a token list, together with the `_tmp_lines`
value it records (2 for the leading `'\n\n'` plus one per wrapped line):
the header newlines and the muted color-start, the walked wrapped lines,
and a final color-end.  The underline index is `success_errors - 1` when
errors are pending, else `success_errors`. -/
def Sentence.reprToks (s : Sentence) (width : ℕ) (pad : List Char) :
    List Tok × ℕ :=
  let wrapped := textwrapWrap width s.text
  let success_errors := s._success.length + s._errors.length
  let ul := if s.errors then success_errors - 1 else success_errors
  (Tok.newline :: Tok.newline :: Tok.colorStart 100 102 105 ::
      (walkLines pad s._success.length success_errors s.errors ul wrapped 0 ++
        [Tok.colorEnd]),
    2 + wrapped.length)

/-- The text characters of a rendered payload, stripped of the color and
underline escapes, the padding, and the newlines. -/
def stripStyling (toks : List Tok) : List Char :=
  toks.filterMap fun t =>
    match t with
    | Tok.txt c => some c
    | Tok.underlined c => some c
    | _ => none

/-- How many characters of a rendered payload carry the underline code. -/
def underlineCount (toks : List Tok) : ℕ :=
  toks.countP fun t =>
    match t with
    | Tok.underlined _ => true
    | _ => false

/-- `fillLine` loses no characters: the emitted line followed by the
remaining chunks carries exactly the pending line plus all chunks. -/
theorem fillLine_concat (width : ℕ) :
    ∀ (chunks : List (List Char)) (cur : List Char) (curLen : ℕ),
      (fillLine width chunks cur curLen).1 ++
          ((fillLine width chunks cur curLen).2).flatten =
        cur ++ chunks.flatten := by
  intro chunks
  induction chunks with
  | nil =>
    intro cur curLen
    simp [fillLine]
  | cons chunk rest ih =>
    intro cur curLen
    rw [fillLine]
    split
    · rw [ih]
      simp
    · split
      · rw [List.flatten_cons, List.flatten_cons, List.append_assoc,
          ← List.append_assoc (List.take _ _) (List.drop _ _),
          List.take_append_drop]
      · simp

/-- `wrapChunksFuel` loses no characters. -/
theorem wrapChunksFuel_concat (width : ℕ) :
    ∀ (fuel : ℕ) (chunks : List (List Char)),
      (wrapChunksFuel width fuel chunks).flatten = chunks.flatten := by
  intro fuel
  induction fuel with
  | zero =>
    intro chunks
    cases chunks <;> simp [wrapChunksFuel]
  | succ n ih =>
    intro chunks
    cases chunks with
    | nil => simp [wrapChunksFuel]
    | cons chunk rest =>
      rw [wrapChunksFuel]
      rw [List.flatten_cons, ih]
      exact fillLine_concat width (chunk :: rest) [] 0

/-- `splitChunks` loses no characters. -/
theorem splitChunks_concat :
    ∀ text : List Char, (splitChunks text).flatten = text := by
  intro text
  induction text with
  | nil => rfl
  | cons c rest ih =>
    cases hs : splitChunks rest with
    | nil =>
      rw [hs] at ih
      simp only [List.flatten_nil] at ih
      simp only [splitChunks, hs]
      simp [← ih]
    | cons g groups =>
      rw [hs] at ih
      cases g with
      | nil =>
        simp only [List.flatten_cons, List.nil_append] at ih
        simp only [splitChunks, hs]
        simp [List.flatten_cons, ih]
      | cons d ds =>
        simp only [List.flatten_cons, List.cons_append] at ih
        simp only [splitChunks, hs]
        split <;>
          simp only [List.flatten_cons, List.cons_append,
            List.singleton_append, List.nil_append] <;>
          rw [ih]

/-- The word-wrap of the renderer loses no characters: the wrapped lines
concatenate back to the munged text. -/
theorem textwrapWrap_concat (width : ℕ) (text : List Char) :
    (textwrapWrap width text).flatten = munge text := by
  unfold textwrapWrap
  rw [wrapChunksFuel_concat, splitChunks_concat]

theorem stripStyling_append (a b : List Tok) :
    stripStyling (a ++ b) = stripStyling a ++ stripStyling b :=
  List.filterMap_append a b _

theorem stripStyling_txt (c : Char) (ts : List Tok) :
    stripStyling (Tok.txt c :: ts) = c :: stripStyling ts := rfl

theorem stripStyling_underlined (c : Char) (ts : List Tok) :
    stripStyling (Tok.underlined c :: ts) = c :: stripStyling ts := rfl

theorem stripStyling_colorStart (r g b : ℕ) (ts : List Tok) :
    stripStyling (Tok.colorStart r g b :: ts) = stripStyling ts := rfl

theorem stripStyling_colorEnd (ts : List Tok) :
    stripStyling (Tok.colorEnd :: ts) = stripStyling ts := rfl

theorem stripStyling_padTok (p : List Char) (ts : List Tok) :
    stripStyling (Tok.padTok p :: ts) = stripStyling ts := rfl

theorem stripStyling_newline (ts : List Tok) :
    stripStyling (Tok.newline :: ts) = stripStyling ts := rfl

/-- Stripping the walked line recovers exactly its characters. -/
theorem stripStyling_walkLine (nS nSE : ℕ) (hasErr : Bool) (ul : ℕ) :
    ∀ (line : List Char) (count : ℕ),
      stripStyling (walkLine nS nSE hasErr ul line count) = line := by
  intro line
  induction line with
  | nil => intro count; rfl
  | cons w ws ih =>
    intro count
    rw [walkLine, stripStyling_append]
    have hpre : stripStyling
        (if count = nS ∧ hasErr = true then [Tok.colorStart 217 4 82]
          else if count = nSE then [Tok.colorEnd] else []) = [] := by
      split
      · rfl
      · split <;> rfl
    rw [hpre]
    by_cases h3 : count = ul
    · rw [if_pos h3, stripStyling_underlined, ih]
      rfl
    · rw [if_neg h3, stripStyling_txt, ih]
      rfl

/-- Stripping the walked lines recovers their concatenation. -/
theorem stripStyling_walkLines (pad : List Char) (nS nSE : ℕ)
    (hasErr : Bool) (ul : ℕ) :
    ∀ (lines : List (List Char)) (count : ℕ),
      stripStyling (walkLines pad nS nSE hasErr ul lines count) =
        lines.flatten := by
  intro lines
  induction lines with
  | nil => intro count; rfl
  | cons line rest ih =>
    intro count
    rw [walkLines, stripStyling_padTok, stripStyling_append,
      stripStyling_walkLine, stripStyling_newline, ih, List.flatten_cons]

/-- C6 (amended): stripping a render of any state of all styling codes,
padding and newlines yields `completed ++ pending-errors ++ remaining`
**with every whitespace character replaced by a space** — one character
for one, but a mistyped TAB/LF/VT/FF/CR comes back as `' '` (textwrap's
default `replace_whitespace=True`); the round trip is exact precisely
when the string contains no whitespace other than spaces. -/
theorem render_strips_to_munged_text (s : Sentence) (width : ℕ)
    (pad : List Char) :
    stripStyling (s.reprToks width pad).1 = munge s.text := by
  unfold Sentence.reprToks
  simp only [stripStyling_newline, stripStyling_colorStart,
    stripStyling_append, stripStyling_walkLines, stripStyling_colorEnd]
  rw [show stripStyling ([] : List Tok) = [] from rfl, List.append_nil,
    textwrapWrap_concat]

theorem underlineCount_append (a b : List Tok) :
    underlineCount (a ++ b) = underlineCount a + underlineCount b :=
  List.countP_append _ _ _

theorem underlineCount_underlined (c : Char) (ts : List Tok) :
    underlineCount (Tok.underlined c :: ts) = underlineCount ts + 1 := by
  simp [underlineCount, List.countP_cons]

theorem underlineCount_txt (c : Char) (ts : List Tok) :
    underlineCount (Tok.txt c :: ts) = underlineCount ts := by
  simp [underlineCount, List.countP_cons]

theorem underlineCount_colorStart (r g b : ℕ) (ts : List Tok) :
    underlineCount (Tok.colorStart r g b :: ts) = underlineCount ts := by
  simp [underlineCount, List.countP_cons]

theorem underlineCount_colorEnd (ts : List Tok) :
    underlineCount (Tok.colorEnd :: ts) = underlineCount ts := by
  simp [underlineCount, List.countP_cons]

theorem underlineCount_padTok (p : List Char) (ts : List Tok) :
    underlineCount (Tok.padTok p :: ts) = underlineCount ts := by
  simp [underlineCount, List.countP_cons]

theorem underlineCount_newline (ts : List Tok) :
    underlineCount (Tok.newline :: ts) = underlineCount ts := by
  simp [underlineCount, List.countP_cons]

/-- The walk of one line underlines its character at global index `ul`,
when that index falls inside the line, and nothing else. -/
theorem underlineCount_walkLine (nS nSE : ℕ) (hasErr : Bool) (ul : ℕ) :
    ∀ (line : List Char) (count : ℕ),
      underlineCount (walkLine nS nSE hasErr ul line count) =
        if count ≤ ul ∧ ul < count + line.length then 1 else 0 := by
  intro line
  induction line with
  | nil =>
    intro count
    rw [walkLine]
    simp only [List.length_nil, Nat.add_zero]
    rw [if_neg (by omega)]
    rfl
  | cons w ws ih =>
    intro count
    rw [walkLine, underlineCount_append]
    have hpre : underlineCount
        (if count = nS ∧ hasErr = true then [Tok.colorStart 217 4 82]
          else if count = nSE then [Tok.colorEnd] else []) = 0 := by
      split
      · rfl
      · split <;> rfl
    rw [hpre]
    by_cases h3 : count = ul
    · rw [if_pos h3, underlineCount_underlined, ih]
      simp only [List.length_cons]
      split_ifs <;> omega
    · rw [if_neg h3, underlineCount_txt, ih]
      simp only [List.length_cons]
      split_ifs <;> omega

/-- The walk of all lines underlines exactly one character when the
underline index falls inside the whole text, and none otherwise. -/
theorem underlineCount_walkLines (pad : List Char) (nS nSE : ℕ)
    (hasErr : Bool) (ul : ℕ) :
    ∀ (lines : List (List Char)) (count : ℕ),
      underlineCount (walkLines pad nS nSE hasErr ul lines count) =
        if count ≤ ul ∧ ul < count + lines.flatten.length then 1 else 0 := by
  intro lines
  induction lines with
  | nil =>
    intro count
    rw [walkLines]
    simp only [List.flatten_nil, List.length_nil, Nat.add_zero]
    rw [if_neg (by omega)]
    rfl
  | cons line rest ih =>
    intro count
    rw [walkLines, underlineCount_padTok, underlineCount_append,
      underlineCount_walkLine, underlineCount_newline, ih,
      List.flatten_cons, List.length_append]
    split_ifs <;> omega

/-- C6 counterexample: mistyping a TAB on target `"ab"` is a reachable
state of the input loop (TAB is in `string.printable`), and stripping its
render does *not* reproduce `completed + pending-errors + remaining`: the
TAB comes back as a space. -/
theorem render_strip_alters_mistyped_tab :
    runLoop (Sentence.init ['a', 'b']) 0 0 [(['\t'], 0)] =
        (⟨[], ['\t'], ['a', 'b'], 2⟩, 1, 0) ∧
      stripStyling
          ((⟨[], ['\t'], ['a', 'b'], 2⟩ : Sentence).reprToks 100 []).1 ≠
        (⟨[], ['\t'], ['a', 'b'], 2⟩ : Sentence).text := by
  constructor
  · have hs : step (Sentence.init ['a', 'b']) 0 ['\t'] =
        (⟨[], ['\t'], ['a', 'b'], 2⟩, 1) := by decide
    rw [runLoop_cons _ _ _ _ (by decide) hs]
    norm_num [runLoop]
  · decide

/-- C8 counterexample: the render performed right after the final
successful keystroke (state reached by the loop on target `"a"` typing
`'a'`) has empty errors and empty remaining, and underlines **zero**
characters, not exactly one as the claim states. -/
theorem render_underline_final_counterexample :
    runLoop (Sentence.init ['a']) 0 0 [(['a'], 0)] =
        (⟨['a'], [], [], 1⟩, 1, 0) ∧
      underlineCount ((⟨['a'], [], [], 1⟩ : Sentence).reprToks 100 []).1 = 0 ∧
      (0 : ℕ) ≠ 1 := by
  refine ⟨runLoop_all_correct ['a'] [] 0 0 1 (by decide), by decide, by decide⟩

/-! ### Terminal dimensions, `refresh` and `resize` -/

/-- The class-level display state of `Sentence` (`_width`, `_height`,
`_lines`, `_tmp_lines`, `_pad`, `_cover`) — class attributes in Python,
modelled as a separate record so the session data and the display cache
are visibly disjoint. -/
structure Dims where
  _height : ℕ
  _width : ℕ
  _lines : ℕ
  _tmp_lines : ℕ
  _pad : List Char
  _cover : List Char
deriving DecidableEq, Repr

/-- `Sentence.refresh_dimensions`: reads the terminal size and recomputes
`_height = lines`, `_width = int(columns * 0.8)`,
`_pad = ' ' * int((columns * 0.2) // 2)` and
`_cover = _pad + ' ' * _width`.  The float literals `0.8` and `0.2` are
modelled as the exact rationals `8/10` and `2/10`; `int(·)` and `// 2` on
these non-negative values are floors.  (The `print(codes['clear'])` is
terminal output, not state.) -/
def refresh_dimensions (columns rows : ℕ) (d : Dims) : Dims :=
  { d with
    _height := rows
    _width := ⌊(columns : ℚ) * (8/10)⌋₊
    _pad := List.replicate ⌊(columns : ℚ) * (2/10) / 2⌋₊ ' '
    _cover := List.replicate ⌊(columns : ℚ) * (2/10) / 2⌋₊ ' ' ++
      List.replicate ⌊(columns : ℚ) * (8/10)⌋₊ ' ' }

/-- The session-plus-display state seen by `refresh` and `resize`. -/
structure RenderState where
  sent : Sentence
  dims : Dims

/-- `refresh(cls)`: computes `repr(cls)` (which records `_tmp_lines`),
writes the clear-or-cover payload and the rendered text to stdout, and
stores `_lines = _tmp_lines`.  The terminal write is I/O; the state effect
is the line bookkeeping. -/
def refresh (st : RenderState) : RenderState :=
  { st with dims := { st.dims with
      _tmp_lines := (st.sent.reprToks st.dims._width st.dims._pad).2
      _lines := (st.sent.reprToks st.dims._width st.dims._pad).2 } }

/-- The `SIGWINCH` handler `resize(out, *_)`:
`Sentence.refresh_dimensions()` followed by `refresh(out)`. -/
def resize (st : RenderState) (columns rows : ℕ) : RenderState :=
  refresh { st with dims := refresh_dimensions columns rows st.dims }

/-- C9: invoking the resize handler at any point leaves all four session
fields (`_success`, `_errors`, `_remain`, `_len`) unchanged; it only
rewrites the cached display dimensions and the line-count bookkeeping
while forcing a redraw. -/
theorem resize_preserves_session (st : RenderState) (columns rows : ℕ) :
    (resize st columns rows).sent._success = st.sent._success ∧
      (resize st columns rows).sent._errors = st.sent._errors ∧
      (resize st columns rows).sent._remain = st.sent._remain ∧
      (resize st columns rows).sent._len = st.sent._len := by
  simp [resize, refresh, refresh_dimensions]

/-- C10: after a dimension refresh for a terminal with `c` columns, the
wrap width is `⌊c · 4/5⌋` and the left margin is `⌊(c/5) / 2⌋` characters
(the code computes `int(c * 0.8)` and `int((c * 0.2) // 2)`; in exact
arithmetic these are those floors). -/
theorem refresh_dimensions_formulas (columns rows : ℕ) (d : Dims) :
    (refresh_dimensions columns rows d)._width = columns * 4 / 5 ∧
      (refresh_dimensions columns rows d)._pad.length = columns / 5 / 2 := by
  constructor
  · show ⌊(columns : ℚ) * (8/10)⌋₊ = columns * 4 / 5
    have h1 : (columns : ℚ) * (8/10) = ((columns * 8 : ℕ) : ℚ) / ((10 : ℕ) : ℚ) := by
      push_cast
      ring
    rw [h1, Nat.floor_div_eq_div]
    omega
  · show (List.replicate ⌊(columns : ℚ) * (2/10) / 2⌋₊ ' ').length =
      columns / 5 / 2
    rw [List.length_replicate]
    have h1 : (columns : ℚ) * (2/10) / 2 = ((columns : ℕ) : ℚ) / ((10 : ℕ) : ℚ) := by
      push_cast
      ring
    rw [h1, Nat.floor_div_eq_div]
    omega

/-- The indices, within the stripped text, of the characters that carry
the underline escape (`i` is the index of the next text character). -/
def ulPositions : List Tok → ℕ → List ℕ
  | [], _ => []
  | Tok.txt _ :: ts, i => ulPositions ts (i + 1)
  | Tok.underlined _ :: ts, i => i :: ulPositions ts (i + 1)
  | Tok.colorStart _ _ _ :: ts, i => ulPositions ts i
  | Tok.colorEnd :: ts, i => ulPositions ts i
  | Tok.padTok _ :: ts, i => ulPositions ts i
  | Tok.newline :: ts, i => ulPositions ts i

theorem ulPositions_append (a b : List Tok) :
    ∀ i : ℕ, ulPositions (a ++ b) i =
      ulPositions a i ++ ulPositions b (i + (stripStyling a).length) := by
  induction a with
  | nil =>
    intro i
    simp [ulPositions, stripStyling]
  | cons t ts ih =>
    intro i
    cases t <;>
      simp [ulPositions, stripStyling_txt, stripStyling_underlined,
        stripStyling_colorStart, stripStyling_colorEnd, stripStyling_padTok,
        stripStyling_newline, ih, Nat.add_assoc, Nat.add_comm 1]

theorem ulPositions_txt (c : Char) (ts : List Tok) (i : ℕ) :
    ulPositions (Tok.txt c :: ts) i = ulPositions ts (i + 1) := rfl

theorem ulPositions_underlined (c : Char) (ts : List Tok) (i : ℕ) :
    ulPositions (Tok.underlined c :: ts) i = i :: ulPositions ts (i + 1) := rfl

theorem ulPositions_padTok (p : List Char) (ts : List Tok) (i : ℕ) :
    ulPositions (Tok.padTok p :: ts) i = ulPositions ts i := rfl

theorem ulPositions_newline (ts : List Tok) (i : ℕ) :
    ulPositions (Tok.newline :: ts) i = ulPositions ts i := rfl

theorem ulPositions_colorStart (r g b : ℕ) (ts : List Tok) (i : ℕ) :
    ulPositions (Tok.colorStart r g b :: ts) i = ulPositions ts i := rfl

theorem ulPositions_colorEnd (ts : List Tok) (i : ℕ) :
    ulPositions (Tok.colorEnd :: ts) i = ulPositions ts i := rfl

/-- The walked line underlines the character at stripped-text offset
`i + (ul - count)` when the underline index `ul` falls inside the line,
and nothing otherwise. -/
theorem ulPositions_walkLine (nS nSE : ℕ) (hasErr : Bool) (ul : ℕ) :
    ∀ (line : List Char) (count i : ℕ),
      ulPositions (walkLine nS nSE hasErr ul line count) i =
        if count ≤ ul ∧ ul < count + line.length then [i + (ul - count)]
        else [] := by
  intro line
  induction line with
  | nil =>
    intro count i
    rw [walkLine]
    simp only [List.length_nil, Nat.add_zero]
    rw [if_neg (by omega)]
    rfl
  | cons w ws ih =>
    intro count i
    rw [walkLine, ulPositions_append]
    have hpre : ∀ j : ℕ, ulPositions
        (if count = nS ∧ hasErr = true then [Tok.colorStart 217 4 82]
          else if count = nSE then [Tok.colorEnd] else []) j = [] := by
      intro j
      split
      · rfl
      · split <;> rfl
    have hprelen : (stripStyling
        (if count = nS ∧ hasErr = true then [Tok.colorStart 217 4 82]
          else if count = nSE then [Tok.colorEnd] else [])).length = 0 := by
      split
      · rfl
      · split <;> rfl
    rw [hpre, hprelen, List.nil_append, Nat.add_zero]
    by_cases h3 : count = ul
    · rw [if_pos h3, ulPositions_underlined, ih]
      rw [if_neg (by omega), if_pos (by simp only [List.length_cons]; omega)]
      simp only [List.cons.injEq, and_true]
      omega
    · rw [if_neg h3, ulPositions_txt, ih]
      simp only [List.length_cons]
      split_ifs with h1 h2 h2
      · simp only [List.cons.injEq, and_true]
        omega
      · omega
      · omega
      · rfl

/-- The walked lines underline the character at stripped-text offset
`i + (ul - count)` when `ul` falls inside the whole text. -/
theorem ulPositions_walkLines (pad : List Char) (nS nSE : ℕ)
    (hasErr : Bool) (ul : ℕ) :
    ∀ (lines : List (List Char)) (count i : ℕ),
      ulPositions (walkLines pad nS nSE hasErr ul lines count) i =
        if count ≤ ul ∧ ul < count + lines.flatten.length then
          [i + (ul - count)]
        else [] := by
  intro lines
  induction lines with
  | nil =>
    intro count i
    rw [walkLines]
    simp only [List.flatten_nil, List.length_nil, Nat.add_zero]
    rw [if_neg (by omega)]
    rfl
  | cons line rest ih =>
    intro count i
    rw [walkLines, ulPositions_padTok, ulPositions_append,
      ulPositions_newline, ulPositions_walkLine, stripStyling_walkLine, ih,
      List.flatten_cons, List.length_append]
    split_ifs with h1 h2 h2 <;> first
      | (simp; omega)
      | omega
      | rfl

/-- C8 (amended): whenever pending errors exist or characters remain to be
typed, the renderer underlines exactly one character of the text — at the
last index of the error region if there are errors, else at the first
index of the remaining region.  (In the one render where both are empty —
right after the final successful keystroke — the underline index equals
the text length and **no** character is underlined; see the
counterexample.) -/
theorem render_underline_unique (s : Sentence) (width : ℕ) (pad : List Char)
    (h : s._errors ≠ [] ∨ s._remain ≠ []) :
    ulPositions (s.reprToks width pad).1 0 =
      [if s._errors = [] then s._success.length
        else s._success.length + s._errors.length - 1] ∧
      underlineCount (s.reprToks width pad).1 = 1 := by
  have hlen : (textwrapWrap width s.text).flatten.length = s.text.length := by
    rw [textwrapWrap_concat]
    simp [munge]
  have htext : s.text.length =
      s._success.length + s._errors.length + s._remain.length := by
    simp only [Sentence.text, List.length_append]
  constructor
  · unfold Sentence.reprToks
    simp only [ulPositions_newline, ulPositions_colorStart,
      ulPositions_append, ulPositions_walkLines]
    rw [show ∀ j : ℕ, ulPositions [Tok.colorEnd] j = [] from fun j => rfl]
    rw [List.append_nil, hlen]
    cases hb : s.errors with
    | true =>
      have he : s._errors ≠ [] := by
        simpa [Sentence.errors, List.isEmpty_iff] using hb
      have hpos : 0 < s._errors.length := List.length_pos.mpr he
      rw [if_pos (rfl : (true : Bool) = true)]
      rw [if_pos (by constructor <;> omega)]
      rw [if_neg he]
      simp
    | false =>
      have he : s._errors = [] := by
        simpa [Sentence.errors, List.isEmpty_iff] using hb
      have hz : s._errors.length = 0 := by
        rw [he]
        rfl
      have hr : s._remain ≠ [] := by
        rcases h with h | h
        · exact absurd he h
        · exact h
      have hpos : 0 < s._remain.length := List.length_pos.mpr hr
      rw [if_neg (by simp : ¬((false : Bool) = true))]
      rw [if_pos (by constructor <;> omega)]
      rw [if_pos he]
      simp [hz]
  · unfold Sentence.reprToks
    simp only [underlineCount_newline, underlineCount_colorStart,
      underlineCount_append, underlineCount_walkLines]
    rw [show underlineCount [Tok.colorEnd] = 0 from rfl]
    rw [hlen]
    cases hb : s.errors with
    | true =>
      have he : s._errors ≠ [] := by
        simpa [Sentence.errors, List.isEmpty_iff] using hb
      have hpos : 0 < s._errors.length := List.length_pos.mpr he
      rw [if_pos (rfl : (true : Bool) = true)]
      rw [if_pos (by constructor <;> omega)]
    | false =>
      have he : s._errors = [] := by
        simpa [Sentence.errors, List.isEmpty_iff] using hb
      have hz : s._errors.length = 0 := by
        rw [he]
        rfl
      have hr : s._remain ≠ [] := by
        rcases h with h | h
        · exact absurd he h
        · exact h
      have hpos : 0 < s._remain.length := List.length_pos.mpr hr
      rw [if_neg (by simp : ¬((false : Bool) = true))]
      rw [if_pos (by constructor <;> omega)]

/-- Witness for C8: the fresh session on target `"a"` underlines exactly
one character, at index 0 (the first index of the remaining region). -/
theorem render_underline_unique_witness :
    ulPositions ((Sentence.init ['a']).reprToks 100 []).1 0 =
      [if (Sentence.init ['a'])._errors = []
        then (Sentence.init ['a'])._success.length
        else (Sentence.init ['a'])._success.length +
          (Sentence.init ['a'])._errors.length - 1] ∧
      underlineCount ((Sentence.init ['a']).reprToks 100 []).1 = 1 :=
  render_underline_unique (Sentence.init ['a']) 100 []
    (Or.inr (by decide))
